import Mathlib

/-!
Shallow embedding of the ScholarVault migration pipeline
(src/migration/master_migration.py and src/backend/scripts/master_migration.py).

External collaborators (Supabase record store, S3 upload, Google Vision OCR,
PyPDF2 page serialization) are modelled as oracle parameters: the embedding
fixes the control flow of the Python source and leaves the collaborator
results as inputs.  Machine strings are modelled as `List Char` where the
character-level operations matter, and as `String` elsewhere.
-/

namespace ScholarVault

/-! ## Retry Executor (retry_loop, master_migration.py lines 152-171) -/

/-- Exit of one run of the retry wrapper: a successful value, a raised
error, or the None sentinel returned when retries are exhausted with
`swallow = true`.  Models the three ways `retry_loop` can finish. -/
inductive RetryOutcome (E A : Type) where
  | ok (a : A)
  | raised (e : E)
  | sentinel
  deriving DecidableEq

/-- Observable trace of a `retry_loop` run: the final outcome, the number of
invocations of the wrapped operation, and the sequence of delays slept
(in order).  Delays are modelled as rationals. -/
structure RetryTrace (E A : Type) where
  outcome : RetryOutcome E A
  calls : Nat
  sleeps : List ℚ
  deriving DecidableEq

/-- Loop body of `retry_loop`.  The wrapped callable is modelled as
`f : Nat → Except E A`, giving the outcome of its i-th invocation; the
`allowed_exceptions` tuple is modelled as the predicate `p` (an error with
`p e = false` is not caught by the `except` clause and propagates at once).
`remaining` counts the retries still available: the Python loop raises
(or returns the sentinel) on the failure that makes `attempt > max_retries`,
i.e. when `remaining` has reached zero.  On an earlier failure it sleeps
for `delay`, multiplies `delay` by `backoff`, and retries. -/
def retryGo {E A : Type} (f : Nat → Except E A) (p : E → Bool) (swallow : Bool)
    (backoff : ℚ) : Nat → Nat → ℚ → List ℚ → RetryTrace E A
  | remaining, k, delay, sleeps =>
    match f k with
    | Except.ok a => ⟨RetryOutcome.ok a, k + 1, sleeps⟩
    | Except.error e =>
      if p e then
        match remaining with
        | 0 =>
          if swallow then ⟨RetryOutcome.sentinel, k + 1, sleeps⟩
          else ⟨RetryOutcome.raised e, k + 1, sleeps⟩
        | r + 1 => retryGo f p swallow backoff r (k + 1) (delay * backoff) (sleeps ++ [delay])
      else ⟨RetryOutcome.raised e, k + 1, sleeps⟩

/-- Models `retry_loop(func, max_retries, initial_delay, backoff,
allowed_exceptions, swallow)`: starts with attempt counter 0 and the initial
delay, no sleeps performed yet. -/
def retry_loop {E A : Type} (f : Nat → Except E A) (p : E → Bool) (maxRetries : Nat)
    (swallow : Bool) (backoff initialDelay : ℚ) : RetryTrace E A :=
  retryGo f p swallow backoff maxRetries 0 initialDelay []

/-! ## Confidence Evaluator (inline in extract_text_from_image_bytes,
master_migration.py lines 297-307) -/

/-- Document-level OCR confidence.  The source collects
`symbol.confidence` for every symbol with `symbol.confidence > 0` into
`confidence_scores` and computes
`sum(confidence_scores) / len(confidence_scores) if confidence_scores else 0`.
Scores are modelled as rationals. -/
def avg_confidence (scores : List ℚ) : ℚ :=
  let pos := scores.filter (fun s => decide (0 < s))
  if pos.isEmpty then 0 else pos.sum / (pos.length : ℚ)

/-! ## StorageKey derivation (build_s3_key, master_migration.py lines 181-196) -/

/-- Digit characters of a string, in order; models
`filter(str.isdigit, path_parts[1])` restricted to ASCII digits. -/
def digitsOf (s : List Char) : List Char := s.filter Char.isDigit

/-- Value of a digit string read in base 10; models `int(...)` applied to a
nonempty all-digit string. -/
def digitsVal (ds : List Char) : Nat := ds.foldl (fun acc c => acc * 10 + (c.toNat - 48)) 0

/-- Models `build_s3_key(path_parts, filename)`.  The Python function indexes
`path_parts[0]` unconditionally (an empty list raises, modelled as `none`),
wraps the year extraction in try/except so that a missing `path_parts[1]`
falls back to the string `unknown` and a digit-free `path_parts[1]` falls
back to the raw string, and defaults subject to `unknown` and resource type
to `Notes`. -/
def build_s3_key (path_parts : List String) (filename : String) : Option String :=
  match path_parts[0]? with
  | none => none
  | some branch =>
    let year_component : String :=
      match path_parts[1]? with
      | none => "unknown"
      | some p1 =>
        let ds := digitsOf p1.data
        if ds.isEmpty then p1 else toString (digitsVal ds)
    let subject := (path_parts[2]?).getD "unknown"
    let resource_type := (path_parts[3]?).getD "Notes"
    some (branch ++ "/" ++ year_component ++ "/" ++ subject ++ "/" ++ resource_type
      ++ "/" ++ filename)

/-! ## Text Normalizer (clean_ocr_text, master_migration.py lines 250-273) -/

/-- Whitespace for Python's `str.split()` with no arguments and `str.strip()`,
restricted to the ASCII range: space, tab, newline, carriage return,
vertical tab, form feed. -/
def isPySpace (c : Char) : Bool :=
  c == ' ' || c == '\t' || c == '\n' || c == '\r' || c == Char.ofNat 11 || c == Char.ofNat 12

/-- Filter of the control-character removal step:
`ord(char) >= 32 or char in '\n\t\r'`. -/
def keepChar (c : Char) : Bool := 32 ≤ c.toNat || c == '\n' || c == '\t' || c == '\r'

/-- Single pass of Python's `str.split()` with an accumulator holding the
word currently being read (in order).  Whitespace ends the current word
(dropped if empty); any other character extends it. -/
def pySplitAux : List Char → List Char → List (List Char)
  | [], w => if w = [] then [] else [w]
  | c :: cs, w =>
    if isPySpace c then
      if w = [] then pySplitAux cs [] else w :: pySplitAux cs []
    else pySplitAux cs (w ++ [c])

/-- Models `text.split()`: the whitespace-separated words of `text`, empties
dropped. -/
def pySplit (s : List Char) : List (List Char) := pySplitAux s []

/-- Models `' '.join(words)`. -/
def joinSpace : List (List Char) → List Char
  | [] => []
  | [w] => w
  | w :: ws => w ++ ' ' :: joinSpace ws

/-- Models `'\n\n\n' in text`: some position starts three consecutive
newlines. -/
def containsTriple : List Char → Bool
  | [] => false
  | c :: cs => if c = '\n' ∧ cs.take 2 = ['\n', '\n'] then true else containsTriple cs

/-- Single pass of `text.replace('\n\n\n', '\n\n')`: left-to-right,
non-overlapping, the scan resumes after each replacement. -/
def pyReplace3 : List Char → List Char
  | '\n' :: '\n' :: '\n' :: rest => '\n' :: '\n' :: pyReplace3 rest
  | c :: rest => c :: pyReplace3 rest
  | [] => []

/-- Fuel-indexed form of the `while '\n\n\n' in text:` loop; every productive
pass shortens the string, so `s.length` passes always reach the fixpoint. -/
def collapseNewlinesAux : Nat → List Char → List Char
  | 0, s => s
  | n + 1, s => if containsTriple s then collapseNewlinesAux n (pyReplace3 s) else s

/-- Models the `while '\n\n\n' in text: text = text.replace('\n\n\n','\n\n')`
loop of `clean_ocr_text`. -/
def collapseNewlines (s : List Char) : List Char := collapseNewlinesAux s.length s

/-- Models `text.strip()` over the ASCII whitespace set. -/
def pyStrip (s : List Char) : List Char :=
  (((s.dropWhile isPySpace).reverse).dropWhile isPySpace).reverse

/-- Length threshold `OCR_TEXT_MIN_LENGTH` below which cleaned text is
treated as no-signal. -/
def OCR_TEXT_MIN_LENGTH : Nat := 10

/-- Models `clean_ocr_text(raw_text)`.  The argument is an `Option` because
the Python function is called with `None` and with strings alike and
`if not raw_text` sends both `None` and the empty string to `None`.
Steps, in source order: keep characters with code point at least 32 plus
newline, tab, carriage return; `' '.join(text.split())`; the triple-newline
collapse loop; `strip()`; finally the minimum-length gate. -/
def clean_ocr_text (raw : Option (List Char)) : Option (List Char) :=
  match raw with
  | none => none
  | some s =>
    if s = [] then none
    else
      let t1 := s.filter keepChar
      let t2 := joinSpace (pySplit t1)
      let t3 := collapseNewlines t2
      let t4 := pyStrip t3
      if OCR_TEXT_MIN_LENGTH ≤ t4.length then some t4 else none

/-! ## OCR Dispatcher (extract_text_sync, master_migration.py lines 391-405
and backend/scripts lines 250-265) -/

/-- Error raised by an upstream OCR call (Google Vision API error, retry
error, or any other exception escaping the image or PDF extractor). -/
structure OcrError where
  msg : String
  deriving DecidableEq

/-- Models `mime_type.startswith("image/")` on a character-list MIME type. -/
def startsWithImage : List Char → Bool
  | 'i' :: 'm' :: 'a' :: 'g' :: 'e' :: '/' :: _ => true
  | _ => false

/-- Models `extract_text_sync(content_bytes, mime_type)`.  The image and PDF
extractors are oracle parameters returning either extracted text (possibly
`none` when no usable text was found) or a raised error.  The dispatcher
routes on the MIME type; the whole routing is wrapped in
`try ... except Exception: return None`, so a raised extractor error is
caught and converted to `Except.ok none`, and an unsupported MIME type
yields `Except.ok none` as well.  The codomain stays `Except` to record
that the function itself never raises. -/
def extract_text_sync (imgExtract pdfExtract : List Nat → Except OcrError (Option (List Char)))
    (content : List Nat) (mime : List Char) : Except OcrError (Option (List Char)) :=
  let routed : Except OcrError (Option (List Char)) :=
    if startsWithImage mime then imgExtract content
    else if mime = "application/pdf".data then pdfExtract content
    else Except.ok none
  match routed with
  | Except.ok t => Except.ok t
  | Except.error _ => Except.ok none

/-! ## Adaptive Chunker (dynamic_chunk_and_ocr_pdf, master_migration.py
lines 407-485 and backend/scripts lines 267-326) -/

/-- Whether a page range was submitted to OCR or skipped as over-limit at
minimum page count. -/
inductive ChunkTag where
  | processed
  | skipped
  deriving DecidableEq

/-- Page range emitted by the chunking loop: start inclusive, end exclusive. -/
structure ChunkRange where
  startPage : Nat
  endPage : Nat
  tag : ChunkTag
  deriving DecidableEq

/-- Chunk-window update after a processed range: `if chunk_pages <
start_chunk_pages: chunk_pages = min(start_chunk_pages, chunk_pages * 2)`. -/
def nextChunkPages (startChunkPages chunkPages : Nat) : Nat :=
  if chunkPages < startChunkPages then min startChunkPages (chunkPages * 2) else chunkPages

/-- Range-emission skeleton of the `while page_idx < total_pages:` loop of
`dynamic_chunk_and_ocr_pdf`.  The serialized byte size of pages
`[pageIdx, endPage)` is the oracle `sz pageIdx endPage` (deterministic, as
PdfWriter serialization is).  One iteration: take the window
`endPage = min (pageIdx + chunkPages) total`; if the chunk is over `limit`
with more than one page, halve the window and retry the same start page; if
over `limit` at one page, emit the range as skipped and advance; otherwise
emit it as processed, advance, and ramp the window back up.  The invariant
`1 ≤ chunkPages` is threaded through; it justifies termination (the window
strictly shrinks on a retry, the start page strictly advances on every
emitted range). -/
def chunkLoop (sz : Nat → Nat → Nat) (limit total startChunkPages : Nat) :
    (pageIdx : Nat) → (chunkPages : Nat) → 1 ≤ chunkPages → List ChunkRange
  | pageIdx, chunkPages, hcp =>
    if hlt : pageIdx < total then
      let endPage := min (pageIdx + chunkPages) total
      let chunkSize := sz pageIdx endPage
      if h1 : limit < chunkSize ∧ 1 < chunkPages then
        chunkLoop sz limit total startChunkPages pageIdx (max 1 (chunkPages / 2))
          (le_max_left _ _)
      else if h2 : limit < chunkSize ∧ chunkPages = 1 then
        ⟨pageIdx, endPage, ChunkTag.skipped⟩ ::
          chunkLoop sz limit total startChunkPages endPage chunkPages hcp
      else
        ⟨pageIdx, endPage, ChunkTag.processed⟩ ::
          chunkLoop sz limit total startChunkPages endPage
            (nextChunkPages startChunkPages chunkPages)
            (by unfold nextChunkPages; split <;> omega)
    else []
  termination_by pageIdx chunkPages _ => (total - pageIdx, chunkPages)
  decreasing_by
  · apply Prod.Lex.right
    omega
  · apply Prod.Lex.left
    omega
  · apply Prod.Lex.left
    omega

/-- Models the chunk-plan part of `dynamic_chunk_and_ocr_pdf(pdf_bytes,
start_chunk_pages)`: zero pages yield no ranges (the source returns `None`);
otherwise the loop starts at page 0 with window
`max(start_chunk_pages, CHUNK_MIN_PAGES)`. -/
def dynamic_chunk_ranges (sz : Nat → Nat → Nat) (limit total startChunkPages : Nat) :
    List ChunkRange :=
  if total = 0 then []
  else chunkLoop sz limit total startChunkPages 0 (max startChunkPages 1) (le_max_right _ _)

/-- Contiguous cover: the ranges run from `lo` to `hi` with no gap, no
overlap, and every range nonempty. -/
def isChain : Nat → Nat → List ChunkRange → Prop
  | lo, hi, [] => lo = hi
  | lo, hi, r :: rs => r.startPage = lo ∧ lo < r.endPage ∧ isChain r.endPage hi rs

/-- Membership of page `p` in an emitted range. -/
def inRange (p : Nat) (r : ChunkRange) : Bool :=
  decide (r.startPage ≤ p) && decide (p < r.endPage)

/-! ## Ingestion Orchestrator and Batch Coordinator (process_file,
migrate_with_mode, master_migration.py lines 691-859) -/

/-- Migration mode of `migrate_with_mode`. -/
inductive Mode where
  | notes_with_ocr
  | notes_no_ocr
  | books
  deriving DecidableEq

/-- Response of the record store to the metadata insert:
success, a duplicate-key error (message text containing `duplicate key` or
`23505`), or some other error. -/
inductive InsertResult where
  | ok
  | dup (msg : String)
  | err (msg : String)
  deriving DecidableEq

/-- Collaborator responses for one WorkItem, fixed before the run:
whether the existence check by storage URL hits, whether the retried S3
upload ultimately raises (`some msg`) or returns, the OCR text the
dispatcher would produce, and the record-store response to the insert.
The OCR step itself never raises (`extract_text_sync` swallows extractor
errors and `dynamic_chunk_and_ocr_pdf` returns `None` on reader errors), so
it carries no error case. -/
structure FileEnv where
  existsInDb : Bool
  uploadErr : Option String
  ocrText : Option (List Char)
  insertRes : InsertResult
  deriving DecidableEq

/-- Status dict returned by `process_file`: the `success` flag and the
`reason` string. -/
structure FileResult where
  success : Bool
  reason : String
  deriving DecidableEq

/-- Result of one `process_file` run together with its externally visible
effect counts: how many upload attempt sequences and insert attempts were
issued. -/
structure FileOutcome where
  result : FileResult
  uploadCalls : Nat
  insertCalls : Nat
  deriving DecidableEq

/-- Models `str(e)[:200]`: Python slices by code point. -/
def strTake200 (m : String) : String := ⟨m.data.take 200⟩

/-- Models `process_file(file_tuple, mode)` with `DRY_RUN = False` and an
initialized Supabase client.  Control flow of the source: existence check
first (hit returns reason `already_exists` before any upload or insert);
then the retried upload (an exhausted failure is caught by the outer
`except Exception` with the truncated error text as reason); then the
optional OCR step (never raises); then the insert — `insert_note_record`
converts a duplicate-key response into `DuplicateRecordError`, which
`process_file` catches and reports as reason `already_exists_duplicate`,
while `insert_book_record` re-raises the original error, which lands in the
generic failure branch. -/
def process_file (mode : Mode) (env : FileEnv) : FileOutcome :=
  if env.existsInDb then
    { result := ⟨false, "already_exists"⟩, uploadCalls := 0, insertCalls := 0 }
  else
    match env.uploadErr with
    | some m => { result := ⟨false, strTake200 m⟩, uploadCalls := 1, insertCalls := 0 }
    | none =>
      match env.insertRes with
      | InsertResult.ok => { result := ⟨true, ""⟩, uploadCalls := 1, insertCalls := 1 }
      | InsertResult.dup m =>
        if mode = Mode.books then
          { result := ⟨false, strTake200 m⟩, uploadCalls := 1, insertCalls := 1 }
        else
          { result := ⟨false, "already_exists_duplicate"⟩, uploadCalls := 1, insertCalls := 1 }
      | InsertResult.err m =>
        { result := ⟨false, strTake200 m⟩, uploadCalls := 1, insertCalls := 1 }

/-- Aggregate counters of `migrate_with_mode`. -/
structure Counters where
  succ : Nat
  skip : Nat
  fail : Nat
  deriving DecidableEq

/-- Which counter one completed worker feeds, mirroring the completion loop
of `migrate_with_mode`: a worker whose `future.result()` raised counts as
failed; otherwise `success` counts as succeeded, reasons `already_exists`
and `already_exists_duplicate` count as skipped, and everything else as
failed. -/
inductive BatchClass where
  | succeeded
  | skipped
  | failed
  deriving DecidableEq

/-- Classification of one completed future. -/
def classify (r : Except String FileResult) : BatchClass :=
  match r with
  | Except.error _ => BatchClass.failed
  | Except.ok res =>
    if res.success then BatchClass.succeeded
    else if res.reason = "already_exists" ∨ res.reason = "already_exists_duplicate" then
      BatchClass.skipped
    else BatchClass.failed

/-- One step of the counting loop in `migrate_with_mode` (lines 814-841):
the branch structure is written out as in the source. -/
def tallyStep (c : Counters) (r : Except String FileResult) : Counters :=
  match r with
  | Except.error _ => { c with fail := c.fail + 1 }
  | Except.ok res =>
    if res.success then { c with succ := c.succ + 1 }
    else if res.reason = "already_exists" ∨ res.reason = "already_exists_duplicate" then
      { c with skip := c.skip + 1 }
    else { c with fail := c.fail + 1 }

/-- Models the aggregation of `migrate_with_mode` over the completed futures
in completion order (a `Except.error` entry models a worker whose
`future.result()` raised at the pool boundary). -/
def migrate_tally (rs : List (Except String FileResult)) : Counters :=
  rs.foldl tallyStep ⟨0, 0, 0⟩

/-- Completion-order result list of the batch from end-to-end scenario C of
the specification: 100 work items of which 10 hit the existence check,
5 fail their upload, and 85 succeed. -/
def scenarioC : List (Except String FileResult) :=
  List.replicate 10 (Except.ok ⟨false, "already_exists"⟩) ++
    List.replicate 5 (Except.ok ⟨false, "upload failed: timeout"⟩) ++
    List.replicate 85 (Except.ok ⟨true, ""⟩)

/-!  # Theorems  -/

/-- Helper for C6: when every invocation of the wrapped operation fails with
an error matched by the predicate, the loop makes one call per remaining
retry plus the final exhausting call, sleeping the geometrically growing
delays in between. -/
theorem retryGo_all_fail {E A : Type} (f : Nat → Except E A) (e : Nat → E) (p : E → Bool)
    (swallow : Bool) (b : ℚ) (hf : ∀ i, f i = Except.error (e i)) (hp : ∀ i, p (e i) = true) :
    ∀ remaining k delay sleeps,
      retryGo f p swallow b remaining k delay sleeps =
        ⟨if swallow then RetryOutcome.sentinel else RetryOutcome.raised (e (k + remaining)),
          k + remaining + 1,
          sleeps ++ (List.range remaining).map (fun i => delay * b ^ i)⟩ := by
  intro remaining
  induction remaining with
  | zero =>
    intro k delay sleeps
    cases hsw : swallow <;> simp [retryGo, hf, hp, hsw]
  | succ r ih =>
    intro k delay sleeps
    have hstep : retryGo f p swallow b (r + 1) k delay sleeps =
        retryGo f p swallow b r (k + 1) (delay * b) (sleeps ++ [delay]) := by
      conv_lhs => rw [retryGo]
      simp [hf, hp]
    rw [hstep, ih]
    have hfun : ((fun i => delay * b ^ i) ∘ Nat.succ) = fun i => delay * b * b ^ i := by
      funext i
      simp [pow_succ]
      ring
    have hlist : (sleeps ++ [delay]) ++ (List.range r).map (fun i => delay * b * b ^ i) =
        sleeps ++ (List.range (r + 1)).map (fun i => delay * b ^ i) := by
      rw [List.append_assoc]
      congr 1
      rw [List.range_succ_eq_map, List.map_cons, List.map_map, hfun]
      simp
    rw [hlist]
    have h1 : k + 1 + r = k + (r + 1) := by omega
    rw [h1]

/-- C6: for an operation failing with a predicate-matching error on every
attempt, `retry_loop` invokes it exactly `maxRetries + 1` times, sleeping
the backoff-multiplied delays between attempts, and then re-raises the last
error, or returns the None sentinel when `swallow` is set; an error the
predicate does not match propagates immediately after a single call with no
sleep. -/
theorem c6_retry_executor {E A : Type} (f : Nat → Except E A) (e : Nat → E) (p : E → Bool)
    (maxRetries : Nat) (swallow : Bool) (b d0 : ℚ) :
    ((∀ i, f i = Except.error (e i)) → (∀ i, p (e i) = true) →
      retry_loop f p maxRetries swallow b d0 =
        ⟨if swallow then RetryOutcome.sentinel else RetryOutcome.raised (e maxRetries),
          maxRetries + 1,
          (List.range maxRetries).map (fun i => d0 * b ^ i)⟩) ∧
    (∀ e0, f 0 = Except.error e0 → p e0 = false →
      retry_loop f p maxRetries swallow b d0 = ⟨RetryOutcome.raised e0, 1, []⟩) := by
  constructor
  · intro hf hp
    have h := retryGo_all_fail f e p swallow b hf hp maxRetries 0 d0 []
    simpa [retry_loop] using h
  · intro e0 h0 hp0
    cases maxRetries <;> simp [retry_loop, retryGo, h0, hp0]

/-- Witness for C6 at concrete inputs: three retries, backoff 2, initial
delay 1; an always-failing matched error makes four calls and sleeps 1, 2, 4
then re-raises, while an unmatched error propagates after one call. -/
theorem c6_retry_executor_witness :
    retry_loop (A := Unit) (fun _ => Except.error "boom") (fun _ => true) 3 false 2 1 =
      ⟨RetryOutcome.raised "boom", 4, [1, 2, 4]⟩ ∧
    retry_loop (A := Unit) (fun _ => Except.error "boom") (fun _ => false) 3 false 2 1 =
      ⟨RetryOutcome.raised "boom", 1, []⟩ := by
  constructor
  · have h := (c6_retry_executor (A := Unit) (fun _ => Except.error "boom") (fun _ => "boom")
      (fun _ => true) 3 false 2 1).1 (fun _ => rfl) (fun _ => rfl)
    rw [h]
    norm_num [List.range_succ]
  · exact (c6_retry_executor (A := Unit) (fun _ => Except.error "boom") (fun _ => "boom")
      (fun _ => false) 3 false 2 1).2 "boom" rfl rfl

/-- C7: the document-level confidence is the arithmetic mean of the positive
per-symbol scores (with the empty-mean convention 0/0 = 0), and is 0 for an
empty score sequence. -/
theorem c7_avg_confidence (scores : List ℚ) :
    avg_confidence scores =
      (scores.filter (fun s => decide (0 < s))).sum /
        ((scores.filter (fun s => decide (0 < s))).length : ℚ) ∧
    (scores = [] → avg_confidence scores = 0) := by
  constructor
  · unfold avg_confidence
    by_cases h : (scores.filter (fun s => decide (0 < s))).isEmpty
    · rw [if_pos h]
      rw [List.isEmpty_iff] at h
      rw [h]
      simp
    · rw [if_neg h]
  · intro h
    subst h
    simp [avg_confidence]

/-- Witness for C7: the empty sequence yields confidence 0. -/
theorem c7_avg_confidence_witness : avg_confidence [] = 0 :=
  (c7_avg_confidence []).2 rfl

/-- C10: for a nonempty `path_parts` list, `build_s3_key` always returns a
key; a singleton list gets year and subject `unknown` and resource type
`Notes`; a digit-free second component falls back to the raw string. -/
theorem c10_build_s3_key (path_parts : List String) (filename : String)
    (h : path_parts ≠ []) :
    (∃ k, build_s3_key path_parts filename = some k) ∧
    (∀ b, path_parts = [b] →
      build_s3_key path_parts filename =
        some (b ++ "/" ++ "unknown" ++ "/" ++ "unknown" ++ "/" ++ "Notes" ++ "/" ++ filename)) ∧
    (∀ p1, path_parts[1]? = some p1 → digitsOf p1.data = [] →
      build_s3_key path_parts filename =
        some (path_parts.headD "" ++ "/" ++ p1 ++ "/" ++ (path_parts[2]?).getD "unknown"
          ++ "/" ++ (path_parts[3]?).getD "Notes" ++ "/" ++ filename)) := by
  match path_parts, h with
  | b :: rest, _ =>
    refine ⟨⟨_, by simp only [build_s3_key, List.getElem?_cons_zero]; rfl⟩, ?_, ?_⟩
    · intro b' hb
      cases hb
      rfl
    · intro p1 hp1 hds
      simp only [build_s3_key, List.getElem?_cons_zero, List.headD_cons, hp1, hds,
        List.isEmpty_nil]
      rfl

/-- Witness for C10: a two-component path with a digit-free year falls back
to the raw strings and the defaults. -/
theorem c10_build_s3_key_witness :
    (["CSE", "YearX"] : List String) ≠ [] ∧
    build_s3_key ["CSE", "YearX"] "notes.pdf" =
      some ("CSE" ++ "/" ++ "YearX" ++ "/" ++ ((["CSE", "YearX"] : List String)[2]?).getD "unknown"
        ++ "/" ++ ((["CSE", "YearX"] : List String)[3]?).getD "Notes" ++ "/" ++ "notes.pdf") := by
  refine ⟨by simp, ?_⟩
  have h := (c10_build_s3_key ["CSE", "YearX"] "notes.pdf" (by simp)).2.2 "YearX" rfl (by decide)
  simpa using h

/-- C2 counterexample: with an image extractor that raises an upstream OCR
service error, `extract_text_sync` on an `image/png` payload does not
propagate the error; it swallows it and returns the no-text result. -/
theorem c2_counterexample :
    extract_text_sync (fun _ => Except.error ⟨"Vision API error"⟩)
        (fun _ => Except.error ⟨"Vision API error"⟩) [0] "image/png".data =
      Except.ok none ∧
    extract_text_sync (fun _ => Except.error ⟨"Vision API error"⟩)
        (fun _ => Except.error ⟨"Vision API error"⟩) [0] "image/png".data ≠
      Except.error ⟨"Vision API error"⟩ := by
  constructor
  · rfl
  · intro hcon
    rw [show extract_text_sync (fun _ => Except.error ⟨"Vision API error"⟩)
        (fun _ => Except.error ⟨"Vision API error"⟩) [0] "image/png".data =
      Except.ok none from rfl] at hcon
    exact Except.noConfusion hcon

/-- C2 amended: `extract_text_sync` never lets an extractor error escape —
when the routed extractor raises, the error is caught and `None` is
returned; an unsupported MIME type returns `None`; and an extractor that
returns normally has its result passed through unchanged. -/
theorem c2_dispatcher_swallows (imgExtract pdfExtract : List Nat → Except OcrError (Option (List Char)))
    (content : List Nat) (mime : List Char) :
    (∀ e, startsWithImage mime = true → imgExtract content = Except.error e →
      extract_text_sync imgExtract pdfExtract content mime = Except.ok none) ∧
    (∀ e, startsWithImage mime = false → mime = "application/pdf".data →
      pdfExtract content = Except.error e →
      extract_text_sync imgExtract pdfExtract content mime = Except.ok none) ∧
    (startsWithImage mime = false → mime ≠ "application/pdf".data →
      extract_text_sync imgExtract pdfExtract content mime = Except.ok none) ∧
    (∀ e, extract_text_sync imgExtract pdfExtract content mime ≠ Except.error e) := by
  refine ⟨?_, ?_, ?_, ?_⟩
  · intro e himg herr
    simp only [extract_text_sync, if_pos himg, herr]
  · intro e himg hmime herr
    simp only [extract_text_sync, himg, Bool.false_eq_true, if_false]
    rw [if_pos hmime, herr]
  · intro himg hmime
    simp only [extract_text_sync, himg, Bool.false_eq_true, if_false]
    rw [if_neg hmime]
  · intro e
    simp only [extract_text_sync]
    split <;> simp

/-- Witness for C2's amended statement: a raising image extractor on an
`image/png` payload yields the swallowed `None` result. -/
theorem c2_dispatcher_swallows_witness :
    startsWithImage "image/png".data = true ∧
    extract_text_sync (fun _ => Except.error ⟨"boom"⟩) (fun _ => Except.ok none) [0]
      "image/png".data = Except.ok none := by
  refine ⟨by decide, ?_⟩
  exact (c2_dispatcher_swallows (fun _ => Except.error ⟨"boom"⟩) (fun _ => Except.ok none)
    [0] "image/png".data).1 ⟨"boom"⟩ (by decide) rfl

/-- Helper: the counting loop of `migrate_with_mode` computes, from any
starting counters, the starting counters plus the number of completed
futures in each class. -/
theorem foldl_tallyStep (rs : List (Except String FileResult)) :
    ∀ c : Counters, rs.foldl tallyStep c =
      ⟨c.succ + rs.countP (fun r => classify r == BatchClass.succeeded),
        c.skip + rs.countP (fun r => classify r == BatchClass.skipped),
        c.fail + rs.countP (fun r => classify r == BatchClass.failed)⟩ := by
  induction rs with
  | nil => intro c; simp
  | cons r rs ih =>
    intro c
    rw [List.foldl_cons, ih]
    rcases r with m | res
    · simp [tallyStep, classify, List.countP_cons, Counters.mk.injEq]
      omega
    · by_cases hs : res.success <;>
        by_cases hr : res.reason = "already_exists" ∨ res.reason = "already_exists_duplicate" <;>
        simp [tallyStep, classify, hs, hr, List.countP_cons, Counters.mk.injEq] <;> omega

/-- Helper: every completed future lands in exactly one of the three
classes, so the class counts sum to the number of futures. -/
theorem countP_classify_sum (rs : List (Except String FileResult)) :
    rs.countP (fun r => classify r == BatchClass.succeeded) +
      rs.countP (fun r => classify r == BatchClass.skipped) +
      rs.countP (fun r => classify r == BatchClass.failed) = rs.length := by
  induction rs with
  | nil => simp
  | cons r rs ih =>
    simp only [List.countP_cons, List.length_cons]
    cases hcl : classify r <;> simp [hcl] <;> omega

/-- C8: the batch counters are exactly the per-class counts of the
completed futures — every submitted item (including one whose worker raised
at the pool boundary, which never aborts the loop) feeds exactly one
counter, so succeeded + skipped + failed = total; in particular the
100-item batch of scenario C reports succeeded 85, skipped 10, failed 5. -/
theorem c8_batch_report :
    (∀ rs : List (Except String FileResult),
      migrate_tally rs =
        ⟨rs.countP (fun r => classify r == BatchClass.succeeded),
          rs.countP (fun r => classify r == BatchClass.skipped),
          rs.countP (fun r => classify r == BatchClass.failed)⟩ ∧
      (migrate_tally rs).succ + (migrate_tally rs).skip + (migrate_tally rs).fail
        = rs.length) ∧
    migrate_tally scenarioC = ⟨85, 10, 5⟩ ∧ scenarioC.length = 100 := by
  have hmain : ∀ rs : List (Except String FileResult),
      migrate_tally rs =
        ⟨rs.countP (fun r => classify r == BatchClass.succeeded),
          rs.countP (fun r => classify r == BatchClass.skipped),
          rs.countP (fun r => classify r == BatchClass.failed)⟩ := by
    intro rs
    have h := foldl_tallyStep rs ⟨0, 0, 0⟩
    simpa [migrate_tally] using h
  refine ⟨fun rs => ⟨hmain rs, ?_⟩, ?_, by decide⟩
  · rw [hmain rs]
    exact countP_classify_sum rs
  · decide

/-- C4 counterexample: a books-mode work item whose metadata insert receives
a duplicate-key response from the record store is counted as failed, not
skipped — `insert_book_record` re-raises the original error instead of
converting it to the tagged duplicate result. -/
theorem c4_counterexample :
    classify (Except.ok (process_file Mode.books
        ⟨false, none, none,
          InsertResult.dup "duplicate key value violates unique constraint"⟩).result)
      = BatchClass.failed ∧
    classify (Except.ok (process_file Mode.books
        ⟨false, none, none,
          InsertResult.dup "duplicate key value violates unique constraint"⟩).result)
      ≠ BatchClass.skipped := by
  constructor <;> decide

/-- C4 amended: for a work item in either notes mode whose metadata insert
receives a duplicate-key response, `insert_note_record` converts the error
into the tagged duplicate result `already_exists_duplicate`, the item is
classified as skipped and never as a failure, and appending it to any batch
increments only the skipped counter. -/
theorem c4_duplicate_is_skipped (mode : Mode) (env : FileEnv) (m : String)
    (hmode : mode ≠ Mode.books) (hex : env.existsInDb = false)
    (hup : env.uploadErr = none) (hins : env.insertRes = InsertResult.dup m) :
    (process_file mode env).result = ⟨false, "already_exists_duplicate"⟩ ∧
    classify (Except.ok (process_file mode env).result) = BatchClass.skipped ∧
    ∀ pre : List (Except String FileResult),
      migrate_tally (pre ++ [Except.ok (process_file mode env).result]) =
        ⟨(migrate_tally pre).succ, (migrate_tally pre).skip + 1,
          (migrate_tally pre).fail⟩ := by
  obtain ⟨ex, up, ocr, ins⟩ := env
  simp only at hex hup hins
  subst hex hup hins
  have hres : (process_file mode ⟨false, none, ocr, InsertResult.dup m⟩).result =
      ⟨false, "already_exists_duplicate"⟩ := by
    simp [process_file, hmode]
  refine ⟨hres, by simp [classify, hres], ?_⟩
  intro pre
  rw [migrate_tally, List.foldl_append, List.foldl_cons, List.foldl_nil, hres]
  rfl

/-- Witness for C4's amended statement: a notes-mode item with a
duplicate-key insert response is classified as skipped. -/
theorem c4_duplicate_is_skipped_witness :
    Mode.notes_with_ocr ≠ Mode.books ∧
    classify (Except.ok (process_file Mode.notes_with_ocr
        ⟨false, none, none, InsertResult.dup "d"⟩).result) = BatchClass.skipped :=
  ⟨by decide,
    (c4_duplicate_is_skipped Mode.notes_with_ocr ⟨false, none, none, InsertResult.dup "d"⟩
      "d" (by decide) rfl rfl rfl).2.1⟩

/-- C5: a work item whose derived storage URL already exists at the
existence check triggers zero upload attempts and zero insert attempts —
the per-file pipeline returns immediately with reason `already_exists`,
classified as skipped. -/
theorem c5_exists_check_skips (mode : Mode) (env : FileEnv)
    (hex : env.existsInDb = true) :
    process_file mode env =
      { result := ⟨false, "already_exists"⟩, uploadCalls := 0, insertCalls := 0 } ∧
    classify (Except.ok (process_file mode env).result) = BatchClass.skipped := by
  have h : process_file mode env =
      { result := ⟨false, "already_exists"⟩, uploadCalls := 0, insertCalls := 0 } := by
    simp [process_file, hex]
  exact ⟨h, by simp [classify, h]⟩

/-- Witness for C5: a concrete already-present item is skipped with no
upload and no insert. -/
theorem c5_exists_check_skips_witness :
    (FileEnv.mk true none none InsertResult.ok).existsInDb = true ∧
    process_file Mode.notes_with_ocr ⟨true, none, none, InsertResult.ok⟩ =
      { result := ⟨false, "already_exists"⟩, uploadCalls := 0, insertCalls := 0 } :=
  ⟨rfl, (c5_exists_check_skips Mode.notes_with_ocr ⟨true, none, none, InsertResult.ok⟩ rfl).1⟩

/-- Helper for C1: from any start page not beyond the total, the chunking
loop emits a contiguous chain of nonempty ranges reaching exactly the total
page count. -/
theorem chunkLoop_isChain (sz : Nat → Nat → Nat) (limit total startChunkPages : Nat)
    (pageIdx chunkPages : Nat) (hcp : 1 ≤ chunkPages) (hle : pageIdx ≤ total) :
    isChain pageIdx total (chunkLoop sz limit total startChunkPages pageIdx chunkPages hcp) := by
  revert hle
  induction pageIdx, chunkPages, hcp using chunkLoop.induct sz limit total startChunkPages with
  | case1 pageIdx cp hcp hlt endP chS h hcp1 ih =>
    intro hle
    rw [chunkLoop]
    simp only [dif_pos hlt, dif_pos h]
    exact ih hle
  | case2 pageIdx cp hcp hlt endP chS hn1 h hcp1 ih =>
    intro hle
    rw [chunkLoop]
    simp only [dif_pos hlt, dif_neg hn1, dif_pos h]
    refine ⟨rfl, show pageIdx < min (pageIdx + cp) total by omega, ?_⟩
    exact ih (show min (pageIdx + cp) total ≤ total by omega)
  | case3 pageIdx cp hcp hlt endP chS hn1 hn2 hcp1 ih =>
    intro hle
    rw [chunkLoop]
    simp only [dif_pos hlt, dif_neg hn1, dif_neg hn2]
    refine ⟨rfl, show pageIdx < min (pageIdx + cp) total by omega, ?_⟩
    exact ih (show min (pageIdx + cp) total ≤ total by omega)
  | case4 pageIdx cp hcp hlt hcp1 =>
    intro hle
    rw [chunkLoop]
    simp only [dif_neg hlt, isChain]
    omega

/-- Helper for C1: a page left of a chain lies in none of its ranges. -/
theorem isChain_countP_zero (p : Nat) :
    ∀ (rs : List ChunkRange) (lo hi : Nat), isChain lo hi rs → p < lo →
      rs.countP (inRange p) = 0 := by
  intro rs
  induction rs with
  | nil =>
    intro lo hi h hp
    simp
  | cons r rs ih =>
    intro lo hi h hp
    obtain ⟨h1, h2, h3⟩ := h
    have hr : inRange p r = false := by
      have : ¬ r.startPage ≤ p := by omega
      simp [inRange, this]
    simp only [List.countP_cons, hr, if_false]
    simpa using ih r.endPage hi h3 (by omega)

/-- Helper for C1: a page inside a chain's span lies in exactly one of its
ranges. -/
theorem isChain_countP_one (p : Nat) :
    ∀ (rs : List ChunkRange) (lo hi : Nat), isChain lo hi rs → lo ≤ p → p < hi →
      rs.countP (inRange p) = 1 := by
  intro rs
  induction rs with
  | nil =>
    intro lo hi h hlo hhi
    simp only [isChain] at h
    omega
  | cons r rs ih =>
    intro lo hi h hlo hhi
    obtain ⟨h1, h2, h3⟩ := h
    simp only [List.countP_cons]
    by_cases hin : p < r.endPage
    · have hr : inRange p r = true := by
        simp only [inRange, Bool.and_eq_true, decide_eq_true_eq]
        omega
      rw [isChain_countP_zero p rs r.endPage hi h3 hin, hr]
      simp
    · have hr : inRange p r = false := by
        simp only [inRange, Bool.and_eq_false_iff, decide_eq_false_iff_not]
        omega
      rw [hr]
      simpa using ih r.endPage hi h3 (by omega) hhi

/-- C1: for any page-serialization size oracle, any limit, and any
totalPages and startChunkPages at least 1, the ranges emitted by the
adaptive chunking loop (processed or skipped alike) form a contiguous,
nonoverlapping chain from page 0 to totalPages, and every page below
totalPages lies in exactly one emitted range.  Termination of the loop is
established by the well-founded definition of `chunkLoop` itself. -/
theorem c1_chunk_partition (sz : Nat → Nat → Nat) (limit total startChunkPages : Nat)
    (h1 : 1 ≤ total) (h2 : 1 ≤ startChunkPages) :
    isChain 0 total (dynamic_chunk_ranges sz limit total startChunkPages) ∧
    ∀ p, p < total →
      (dynamic_chunk_ranges sz limit total startChunkPages).countP (inRange p) = 1 := by
  have htot : ¬ total = 0 := by omega
  have hchain : isChain 0 total (dynamic_chunk_ranges sz limit total startChunkPages) := by
    rw [dynamic_chunk_ranges, if_neg htot]
    exact chunkLoop_isChain sz limit total startChunkPages 0 (max startChunkPages 1)
      (le_max_right _ _) (by omega)
  exact ⟨hchain, fun p hp => isChain_countP_one p _ 0 total hchain (by omega) hp⟩

/-- Witness for C1: a five-page document (ten bytes per page, limit 25,
initial window 4) has a chunk plan that chains from 0 to 5 and covers each
page exactly once. -/
theorem c1_chunk_partition_witness :
    1 ≤ 5 ∧ 1 ≤ 4 ∧
    (isChain 0 5 (dynamic_chunk_ranges (fun a b => (b - a) * 10) 25 5 4) ∧
      ∀ p, p < 5 →
        (dynamic_chunk_ranges (fun a b => (b - a) * 10) 25 5 4).countP (inRange p) = 1) :=
  ⟨by omega, by omega,
    c1_chunk_partition (fun a b => (b - a) * 10) 25 5 4 (by omega) (by omega)⟩

/-- C3: evaluation of the normalizer at an input with a paragraph break.
The step `' '.join(text.split())` splits on every whitespace character,
newlines included, so the double newline of the input is collapsed to a
single space and no newline survives into the output — contradicting the
stated preservation of paragraph breaks, and leaving the subsequent
triple-newline collapse loop dead. -/
theorem c3_paragraph_breaks_lost :
    clean_ocr_text (some "aaaaaaaaaa\n\nbbbbbbbbbb".data) =
      some "aaaaaaaaaa bbbbbbbbbb".data ∧
    '\n' ∈ "aaaaaaaaaa\n\nbbbbbbbbbb".data ∧
    '\n' ∉ "aaaaaaaaaa bbbbbbbbbb".data := by
  refine ⟨by decide, by decide, by decide⟩

/-- Helper for C9: every word produced by a split from a whitespace-free
accumulator is nonempty and consists of non-whitespace characters drawn
from the accumulator or the input. -/
theorem pySplitAux_words (s : List Char) :
    ∀ acc : List Char, (∀ c ∈ acc, isPySpace c = false) →
      ∀ w ∈ pySplitAux s acc, w ≠ [] ∧ ∀ c ∈ w, isPySpace c = false ∧ (c ∈ acc ∨ c ∈ s) := by
  induction s with
  | nil =>
    intro acc hacc w hw
    simp only [pySplitAux] at hw
    by_cases h : acc = []
    · simp [h] at hw
    · rw [if_neg h] at hw
      simp only [List.mem_singleton] at hw
      subst hw
      exact ⟨h, fun c hc => ⟨hacc c hc, Or.inl hc⟩⟩
  | cons a s ih =>
    intro acc hacc w hw
    simp only [pySplitAux] at hw
    by_cases hsp : isPySpace a = true
    · rw [if_pos hsp] at hw
      have hrec : w ∈ pySplitAux s [] → w ≠ [] ∧ ∀ c ∈ w, isPySpace c = false ∧
          (c ∈ acc ∨ c ∈ a :: s) := by
        intro hw2
        have hthis := ih [] (by simp) w hw2
        refine ⟨hthis.1, fun c hc => ⟨(hthis.2 c hc).1, ?_⟩⟩
        rcases (hthis.2 c hc).2 with h1 | h1
        · simp at h1
        · exact Or.inr (List.mem_cons_of_mem a h1)
      by_cases h : acc = []
      · rw [if_pos h] at hw
        exact hrec hw
      · rw [if_neg h] at hw
        rcases List.mem_cons.mp hw with rfl | hw2
        · exact ⟨h, fun c hc => ⟨hacc c hc, Or.inl hc⟩⟩
        · exact hrec hw2
    · rw [if_neg hsp] at hw
      have hacca : ∀ c ∈ acc ++ [a], isPySpace c = false := by
        intro c hc
        rcases List.mem_append.mp hc with h1 | h1
        · exact hacc c h1
        · simp only [List.mem_singleton] at h1
          subst h1
          simpa using hsp
      have hthis := ih (acc ++ [a]) hacca w hw
      refine ⟨hthis.1, fun c hc => ⟨(hthis.2 c hc).1, ?_⟩⟩
      rcases (hthis.2 c hc).2 with h1 | h1
      · rcases List.mem_append.mp h1 with h2 | h2
        · exact Or.inl h2
        · simp only [List.mem_singleton] at h2
          subst h2
          exact Or.inr (List.mem_cons_self _ _)
      · exact Or.inr (List.mem_cons_of_mem a h1)

/-- Helper for C9: a whitespace-free block at the front of the input is
absorbed into the accumulator. -/
theorem pySplitAux_append (u : List Char) :
    (∀ c ∈ u, isPySpace c = false) →
      ∀ (s acc : List Char), pySplitAux (u ++ s) acc = pySplitAux s (acc ++ u) := by
  induction u with
  | nil =>
    intro _ s acc
    simp
  | cons a u ih =>
    intro hu s acc
    have ha : isPySpace a = false := hu a (List.mem_cons_self _ _)
    simp only [List.cons_append, pySplitAux, ha, Bool.false_eq_true, if_false]
    show pySplitAux (u ++ s) (acc ++ [a]) = pySplitAux s (acc ++ a :: u)
    rw [ih (fun c hc => hu c (List.mem_cons_of_mem a hc)) s (acc ++ [a])]
    simp

/-- Helper for C9: splitting the space-joined words recovers them exactly,
provided the words are nonempty and whitespace-free — the shape of every
successful normalizer output. -/
theorem pySplit_joinSpace (ws : List (List Char))
    (h : ∀ w ∈ ws, w ≠ [] ∧ ∀ c ∈ w, isPySpace c = false) :
    pySplit (joinSpace ws) = ws := by
  induction ws with
  | nil => rfl
  | cons w ws ih =>
    obtain ⟨hw, hwc⟩ := h w (List.mem_cons_self _ _)
    cases ws with
    | nil =>
      have h1 : pySplitAux (w ++ []) [] = pySplitAux [] ([] ++ w) :=
        pySplitAux_append w hwc [] []
      simp only [List.append_nil, List.nil_append] at h1
      show pySplitAux (joinSpace [w]) [] = [w]
      rw [show joinSpace [w] = w from rfl, h1]
      simp only [pySplitAux]
      rw [if_neg hw]
    | cons x ws2 =>
      show pySplitAux (joinSpace (w :: x :: ws2)) [] = w :: x :: ws2
      rw [show joinSpace (w :: x :: ws2) = w ++ ' ' :: joinSpace (x :: ws2) from rfl]
      rw [pySplitAux_append w hwc (' ' :: joinSpace (x :: ws2)) []]
      simp only [List.nil_append, pySplitAux]
      rw [if_pos (show isPySpace ' ' = true from rfl), if_neg hw]
      congr 1
      exact ih (fun w' hw' => h w' (List.mem_cons_of_mem w hw'))

/-- Helper for C9: a character of the space-joined words is a space or a
character of one of the words. -/
theorem mem_joinSpace (ws : List (List Char)) (c : Char) (hc : c ∈ joinSpace ws) :
    c = ' ' ∨ ∃ w, w ∈ ws ∧ c ∈ w := by
  induction ws with
  | nil => simp [joinSpace] at hc
  | cons w ws ih =>
    cases ws with
    | nil =>
      exact Or.inr ⟨w, List.mem_cons_self _ _, hc⟩
    | cons x ws2 =>
      rw [show joinSpace (w :: x :: ws2) = w ++ ' ' :: joinSpace (x :: ws2) from rfl] at hc
      rcases List.mem_append.mp hc with h1 | h1
      · exact Or.inr ⟨w, List.mem_cons_self _ _, h1⟩
      · rcases List.mem_cons.mp h1 with rfl | h2
        · exact Or.inl rfl
        · rcases ih h2 with h3 | ⟨w', hw', hc'⟩
          · exact Or.inl h3
          · exact Or.inr ⟨w', List.mem_cons_of_mem w hw', hc'⟩

/-- Helper for C9: a newline-free string contains no triple newline. -/
theorem containsTriple_eq_false (s : List Char) (h : '\n' ∉ s) :
    containsTriple s = false := by
  induction s with
  | nil => rfl
  | cons a s ih =>
    have ha : ¬ a = '\n' := fun hc => h (hc ▸ List.mem_cons_self _ _)
    have hs : '\n' ∉ s := fun hc => h (List.mem_cons_of_mem a hc)
    simp only [containsTriple]
    rw [if_neg (fun hand => ha hand.1)]
    exact ih hs

/-- Helper for C9: the triple-newline collapse loop fixes any newline-free
string, whatever the fuel. -/
theorem collapseNewlinesAux_no_newline (n : Nat) (s : List Char) (h : '\n' ∉ s) :
    collapseNewlinesAux n s = s := by
  cases n with
  | zero => rfl
  | succ n => simp [collapseNewlinesAux, containsTriple_eq_false s h]

/-- Helper for C9: the collapse step fixes newline-free strings. -/
theorem collapseNewlines_no_newline (s : List Char) (h : '\n' ∉ s) :
    collapseNewlines s = s :=
  collapseNewlinesAux_no_newline _ s h

/-- Helper for C9: the last character of a space-join of nonempty
whitespace-free words is not whitespace. -/
theorem joinSpace_last (ws : List (List Char))
    (h : ∀ w ∈ ws, w ≠ [] ∧ ∀ c ∈ w, isPySpace c = false) (hne : ws ≠ []) :
    ∃ t b, joinSpace ws = t ++ [b] ∧ isPySpace b = false := by
  induction ws with
  | nil => exact absurd rfl hne
  | cons w ws ih =>
    obtain ⟨hw, hwc⟩ := h w (List.mem_cons_self _ _)
    cases ws with
    | nil =>
      refine ⟨w.dropLast, w.getLast hw, ?_, ?_⟩
      · rw [show joinSpace [w] = w from rfl]
        exact (List.dropLast_append_getLast hw).symm
      · exact hwc _ (List.getLast_mem hw)
    | cons x ws2 =>
      obtain ⟨t, b, heq, hb⟩ := ih (fun w' hw' => h w' (List.mem_cons_of_mem w hw'))
        (by simp)
      refine ⟨w ++ ' ' :: t, b, ?_, hb⟩
      rw [show joinSpace (w :: x :: ws2) = w ++ ' ' :: joinSpace (x :: ws2) from rfl, heq]
      simp

/-- Helper for C9: stripping fixes a space-join of nonempty whitespace-free
words, since its first and last characters are word characters. -/
theorem pyStrip_joinSpace (ws : List (List Char))
    (h : ∀ w ∈ ws, w ≠ [] ∧ ∀ c ∈ w, isPySpace c = false) :
    pyStrip (joinSpace ws) = joinSpace ws := by
  cases ws with
  | nil => rfl
  | cons w ws =>
    obtain ⟨hw, hwc⟩ := h w (List.mem_cons_self _ _)
    obtain ⟨t, b, heq, hb⟩ := joinSpace_last (w :: ws) h (by simp)
    obtain ⟨a, w', rfl⟩ : ∃ a w', w = a :: w' := by
      cases w with
      | nil => exact absurd rfl hw
      | cons a w' => exact ⟨a, w', rfl⟩
    have ha : isPySpace a = false := hwc a (List.mem_cons_self _ _)
    have hfront : ∃ rest, joinSpace ((a :: w') :: ws) = a :: (w' ++ rest) := by
      cases ws with
      | nil => exact ⟨[], by simp [joinSpace]⟩
      | cons x ws2 => exact ⟨' ' :: joinSpace (x :: ws2), rfl⟩
    obtain ⟨rest, hfr⟩ := hfront
    have h1 : (joinSpace ((a :: w') :: ws)).dropWhile isPySpace =
        joinSpace ((a :: w') :: ws) := by
      rw [hfr, List.dropWhile_cons]
      simp [ha]
    unfold pyStrip
    rw [h1, heq]
    rw [show (t ++ [b]).reverse = b :: t.reverse by simp]
    rw [List.dropWhile_cons]
    simp [hb]

/-- C9: the normalizer is idempotent — applying `clean_ocr_text` to its own
output (with `None` flowing through to `None`) changes nothing.  A
successful output is a space-join of nonempty words free of whitespace and
control characters, and each cleaning stage fixes strings of that shape. -/
theorem c9_normalizer_idem (x : Option (List Char)) :
    clean_ocr_text (clean_ocr_text x) = clean_ocr_text x := by
  match x with
  | none => rfl
  | some s =>
    by_cases hs : s = []
    · subst hs
      rfl
    · have hclean : ∀ u : List Char, u ≠ [] → clean_ocr_text (some u) =
          if OCR_TEXT_MIN_LENGTH ≤
              (pyStrip (collapseNewlines (joinSpace (pySplit (u.filter keepChar))))).length
          then some (pyStrip (collapseNewlines (joinSpace (pySplit (u.filter keepChar)))))
          else none := by
        intro u hu
        simp only [clean_ocr_text]
        rw [if_neg hu]
      set ws := pySplit (s.filter keepChar) with hws
      have hgood : ∀ w ∈ ws, w ≠ [] ∧ ∀ c ∈ w, isPySpace c = false := by
        intro w hw
        have h := pySplitAux_words (s.filter keepChar) [] (by simp) w hw
        exact ⟨h.1, fun c hc => (h.2 c hc).1⟩
      have hkeep : ∀ w ∈ ws, ∀ c ∈ w, keepChar c = true := by
        intro w hw c hc
        have h := pySplitAux_words (s.filter keepChar) [] (by simp) w hw
        rcases (h.2 c hc).2 with h1 | h1
        · simp at h1
        · exact (List.mem_filter.mp h1).2
      have hjchars : ∀ c ∈ joinSpace ws, keepChar c = true := by
        intro c hc
        rcases mem_joinSpace ws c hc with rfl | ⟨w, hw, hcw⟩
        · rfl
        · exact hkeep w hw c hcw
      have hjnonl : '\n' ∉ joinSpace ws := by
        intro hc
        rcases mem_joinSpace ws '\n' hc with h1 | ⟨w, hw, hcw⟩
        · exact absurd h1 (by decide)
        · have := ((hgood w hw).2 '\n' hcw)
          simp [isPySpace] at this
      have hcol : collapseNewlines (joinSpace ws) = joinSpace ws :=
        collapseNewlines_no_newline _ hjnonl
      have hstr : pyStrip (joinSpace ws) = joinSpace ws := pyStrip_joinSpace ws hgood
      rw [hclean s hs, ← hws, hcol, hstr]
      by_cases hlen : OCR_TEXT_MIN_LENGTH ≤ (joinSpace ws).length
      · rw [if_pos hlen]
        have hjne : joinSpace ws ≠ [] := by
          intro hnil
          rw [hnil] at hlen
          simp [OCR_TEXT_MIN_LENGTH] at hlen
        rw [hclean (joinSpace ws) hjne]
        rw [List.filter_eq_self.mpr hjchars, pySplit_joinSpace ws hgood, hcol, hstr,
          if_pos hlen]
      · rw [if_neg hlen]
        rfl

end ScholarVault
